import Mathlib

/-!
Shallow embedding of the FBA Intelligent Search streaming chat service.

The embedded code is:
* the SSE chat route of src/app/api/chat/route.ts in both of its streaming
  variants — the ai-sdk variant (createAIStream with an onStepFinish handler)
  and the langgraph variant (createSSEStream folding over streamEvents) —
  together with the Google custom-search tool wrapper, the in-memory
  conversation store with its 50-message cap, authentication and the GET
  request handler;
* the client stream reducer of src/lib/useChatStream.ts (the fold of parsed
  stream events into contentBuffer / searchInfo.stages / query / urls).

JavaScript strings are modelled as Lean String with character-level
implementations of the few JS string operations the code uses (trim,
startsWith, substring), so every definition evaluates on concrete input.
Asynchronous streams are modelled as explicit lists of upstream events folded
in arrival order; the arrival order encoded in concrete inputs follows the
contracts of the libraries involved (ai-sdk: a step's text chunks arrive on
textStream before that step's onStepFinish callback runs; langchain
streamEvents v2: a model run's on_chat_model_stream events all precede its
on_chat_model_end event).
-/

namespace FBASearch

/-- JS whitespace test for the characters relevant here (space, tab, LF, CR). -/
def jsIsWhitespace (c : Char) : Bool := c = ' ' || c = '\t' || c = '\n' || c = '\r'

/-- Embedding of String.prototype.trim. -/
def jsTrim (s : String) : String :=
  ⟨((s.data.dropWhile jsIsWhitespace).reverse.dropWhile jsIsWhitespace).reverse⟩

/-- Embedding of String.prototype.startsWith. -/
def jsStartsWith (s pre : String) : Bool := pre.data.isPrefixOf s.data

/-- Embedding of String.prototype.substring(n). -/
def jsSubstringFrom (n : Nat) (s : String) : String := ⟨s.data.drop n⟩

/-- Embedding of the JS expression a || b for two optional strings: the value
of a when present and non-empty, else the value of b when present, else the
empty string (empty strings are falsy in JS). -/
def jsOrString (a b : Option String) : String :=
  let x := a.getD ""
  if x ≠ "" then x else b.getD ""

/-- Server-side SSE event vocabulary, mirroring the SSEEvent interface of
src/app/api/chat/route.ts: the type union
checkpoint | content | search_start | search_results | end | error, each
constructor carrying the payload field that variant actually uses.  The
union deliberately mirrors the source exactly: it has no search_error
member, because the server code declares none.  The end event is named
endOfStream here because end is a Lean keyword. -/
inductive SSEEvent where
  | checkpoint (checkpointId : String)
  | content (text : String)
  | searchStart (query : String)
  | searchResults (urls : List String)
  | endOfStream
  | error (message : String)
deriving DecidableEq

/-- An event is terminal when it is end or error (spec section 3: end is
always the last event unless preempted by error). -/
def isTerminal : SSEEvent → Bool
  | .endOfStream => true
  | .error _ => true
  | _ => false

/-- One mapped search hit, as built by createGoogleSearchTool in
src/app/api/chat/route.ts: title, url (taken from item.link) and snippet. -/
structure SearchItem where
  title : String
  url : String
  snippet : String
deriving DecidableEq

/-- One raw item of the Google Custom Search response body (data.items). -/
structure RawItem where
  title : String
  link : String
  snippet : Option String
deriving DecidableEq

/-- Outcome of the fetch call inside the search tool: an ok response with
parsed items; a non-ok HTTP status (the code throws
"Google API Error: status", caught by its own catch block); or any other
rejection (abort on the 8000 ms timeout, network failure) carrying the
rejection message. -/
inductive FetchOutcome where
  | ok (items : List RawItem)
  | httpError (status : Nat)
  | fetchError (message : String)
deriving DecidableEq

/-- Structured value returned by the execute function of
createGoogleSearchTool: on success the mapped results with error = none; on
any caught failure an empty results list with the message in the error
field.  The function never throws past this boundary. -/
structure SearchToolResult where
  query : String
  results : List SearchItem
  error : Option String
deriving DecidableEq

/-- Embedding of createGoogleSearchTool.execute
(src/app/api/chat/route.ts lines 64-102). -/
def executeGoogleSearch (query : String) (outcome : FetchOutcome) : SearchToolResult :=
  match outcome with
  | .ok items =>
      ⟨query, items.map (fun it => ⟨it.title, it.link, it.snippet.getD ""⟩), none⟩
  | .httpError status => ⟨query, [], some ("Google API Error: " ++ toString status)⟩
  | .fetchError message => ⟨query, [], some message⟩

/-- A tool call as seen by onStepFinish in the ai-sdk variant: tool name and
the query argument ((toolCall.args as any).query, absent modelled as none). -/
structure ToolCallV1 where
  toolName : String
  argsQuery : Option String
deriving DecidableEq

/-- A tool result as seen by onStepFinish: tool name and the structured
result produced by the tool's execute function. -/
structure ToolResultV1 where
  toolName : String
  result : SearchToolResult
deriving DecidableEq

/-- Upstream occurrences driving createAIStream (ai-sdk variant): a text
chunk arriving on result.textStream, or an onStepFinish callback carrying the
finished step's toolCalls and toolResults. -/
inductive UpstreamV1 where
  | textChunk (chunk : String)
  | stepFinish (toolCalls : List ToolCallV1) (toolResults : List ToolResultV1)
deriving DecidableEq

/-- The mutable locals of createAIStream (route.ts lines 176-179):
searchQuery, searchUrls, isProcessingToolCall, fullResponse. -/
structure LoopStateV1 where
  searchQuery : String
  searchUrls : List String
  isProcessingToolCall : Bool
  fullResponse : String
deriving DecidableEq

/-- Initial values of the createAIStream locals. -/
def initV1 : LoopStateV1 := ⟨"", [], false, ""⟩

/-- Embedding of the toolCalls block of onStepFinish
(route.ts lines 211-229): for each google_custom_search call, record the
query, and when the query is non-empty emit search_start and set
isProcessingToolCall. -/
def handleToolCalls : LoopStateV1 → List ToolCallV1 → LoopStateV1 × List SSEEvent
  | st, [] => (st, [])
  | st, c :: cs =>
    if c.toolName = "google_custom_search" then
      let q := c.argsQuery.getD ""
      let st1 : LoopStateV1 := { st with searchQuery := q }
      if q ≠ "" then
        let res := handleToolCalls { st1 with isProcessingToolCall := true } cs
        (res.1, SSEEvent.searchStart q :: res.2)
      else
        handleToolCalls st1 cs
    else
      handleToolCalls st cs

/-- URL extraction of the toolResults block: push result.url for every
result with a truthy url. -/
def extractUrls (results : List SearchItem) : List String :=
  results.filterMap (fun r => if r.url ≠ "" then some r.url else none)

/-- Embedding of the toolResults block of onStepFinish
(route.ts lines 232-261): append the new URLs to searchUrls, emit
search_results with the whole accumulated list when non-empty, and clear
isProcessingToolCall.  Note that resultData.error is never read: a failed
invocation contributes no URLs and produces no event. -/
def handleToolResults : LoopStateV1 → List ToolResultV1 → LoopStateV1 × List SSEEvent
  | st, [] => (st, [])
  | st, r :: rs =>
    if r.toolName = "google_custom_search" then
      let urls := st.searchUrls ++ extractUrls r.result.results
      let st1 : LoopStateV1 := { st with searchUrls := urls, isProcessingToolCall := false }
      let res := handleToolResults st1 rs
      (res.1, (if urls ≠ [] then [SSEEvent.searchResults urls] else []) ++ res.2)
    else
      handleToolResults st rs

/-- One upstream occurrence processed by createAIStream: a textStream chunk
goes through the content gate (route.ts lines 266-279: stream the chunk
unless isProcessingToolCall is set and the chunk is non-empty), an
onStepFinish callback runs the two blocks above in order. -/
def stepV1 (st : LoopStateV1) (u : UpstreamV1) : LoopStateV1 × List SSEEvent :=
  match u with
  | .textChunk chunk =>
      if st.isProcessingToolCall = false ∧ chunk ≠ "" then
        ({ st with fullResponse := st.fullResponse ++ chunk }, [SSEEvent.content chunk])
      else (st, [])
  | .stepFinish toolCalls toolResults =>
      let a := handleToolCalls st toolCalls
      let b := handleToolResults a.1 toolResults
      (b.1, a.2 ++ b.2)

/-- The whole createAIStream body between checkpoint and end: fold the
upstream occurrences in arrival order, concatenating the emitted events. -/
def runLoopV1 : LoopStateV1 → List UpstreamV1 → LoopStateV1 × List SSEEvent
  | st, [] => (st, [])
  | st, u :: us =>
    let a := stepV1 st u
    let b := runLoopV1 a.1 us
    (b.1, a.2 ++ b.2)

/-- One chat message of the in-memory conversation store
(interface ChatMessage: role user | assistant, content). -/
structure ChatMessage where
  role : String
  content : String
deriving DecidableEq

/-- The in-memory conversation store, a Map from thread id to message
list (route.ts line 108). -/
def ConversationStore : Type := String → Option (List ChatMessage)

/-- A store holding no conversation. -/
def emptyStore : ConversationStore := fun _ => none

/-- Map.prototype.set. -/
def storeSet (s : ConversationStore) (threadId : String) (v : List ChatMessage) :
    ConversationStore :=
  fun k => if k = threadId then some v else s k

/-- Map.prototype.delete, as used by clearConversationHistory. -/
def storeDelete (s : ConversationStore) (threadId : String) : ConversationStore :=
  fun k => if k = threadId then none else s k

/-- Embedding of getConversationHistory: the stored list, or [] when the
thread id is absent. -/
def getConversationHistory (threadId : String) (s : ConversationStore) : List ChatMessage :=
  (s threadId).getD []

/-- Embedding of Array.prototype.slice(-n): the last n elements
(all of them when the array is shorter than n). -/
def jsSliceLast (n : Nat) (l : List α) : List α := l.drop (l.length - n)

/-- Embedding of addToConversationHistory (route.ts lines 114-123): append
the message, then cut the stored list down to the last 50 messages when it
exceeds 50. -/
def addToConversationHistory (threadId : String) (message : ChatMessage)
    (s : ConversationStore) : ConversationStore :=
  let history := getConversationHistory threadId s ++ [message]
  if history.length > 50 then storeSet s threadId (jsSliceLast 50 history)
  else storeSet s threadId history

/-- Appending an ordered sequence of messages one by one, as the route does
after each completed turn. -/
def addAll (threadId : String) (messages : List ChatMessage) (s : ConversationStore) :
    ConversationStore :=
  messages.foldl (fun acc m => addToConversationHistory threadId m acc) s

/-- Event trace of createAIStream (route.ts lines 144-310).  The successful
body emits: the checkpoint event when the store does not yet hold the thread
id, then the events of the upstream fold, then end; when an exception
interrupts the body after k events were enqueued, the catch block emits
error with the thrown message instead (route.ts lines 297-309).  failAt
models the position of such an exception (none: the body runs to
completion); exceptions come from the awaited operations, not from enqueue
itself. -/
def createAIStreamEvents (threadId : String) (store : ConversationStore)
    (upstream : List UpstreamV1) (failAt : Option Nat) (failMessage : String) :
    List SSEEvent :=
  let pre := (if (store threadId).isNone then [SSEEvent.checkpoint threadId] else [])
      ++ (runLoopV1 initV1 upstream).2
  match failAt with
  | none => pre ++ [SSEEvent.endOfStream]
  | some k => pre.take k ++ [SSEEvent.error failMessage]

/-- One model turn of the multi-step agent loop: the text the model streams
during the turn, the tool call the turn ends with (none for a final
answer), and the result the requested tool produces when executed. -/
structure ModelTurn where
  text : String
  toolCall : Option ToolCallV1
  toolResult : ToolResultV1

/-- Modelled from the vendor ai-sdk streamText contract as configured at the
call site (route.ts line 204, maxSteps: 5, source comment: Allow up to 5
steps for multi-tool usage): the loop runs successive model turns; a turn
contributes its text chunk followed by its onStepFinish callback; a turn
that requests a tool has the tool executed within the step and, while the
step budget is not exhausted, is followed by another turn; a turn with no
tool request ends the loop; exhausting the budget ends the loop normally,
without throwing.  The first component is the upstream occurrence list fed
to createAIStream, the second the number of steps taken. -/
def streamTextGo (turns : Nat → ModelTurn) : Nat → Nat → List UpstreamV1 × Nat
  | 0, _ => ([], 0)
  | fuel + 1, i =>
    let t := turns i
    match t.toolCall with
    | none => ([UpstreamV1.textChunk t.text, UpstreamV1.stepFinish [] []], 1)
    | some c =>
      let rest := streamTextGo turns fuel (i + 1)
      (UpstreamV1.textChunk t.text :: UpstreamV1.stepFinish [c] [t.toolResult] :: rest.1,
       rest.2 + 1)

/-- The step loop at the configured budget maxSteps = 5. -/
def streamTextRun (turns : Nat → ModelTurn) : List UpstreamV1 × Nat :=
  streamTextGo turns 5 0

/-- The complete SSE trace for one new conversation driven by the given
model behaviour, with no exception thrown. -/
def c3Stream (turns : Nat → ModelTurn) : List SSEEvent :=
  createAIStreamEvents "thread-1" emptyStore (streamTextRun turns).1 none ""

/-- A tool call of the langgraph variant (createSSEStream): name and the
query / input arguments. -/
structure LCToolCall where
  name : String
  argsQuery : Option String
  argsInput : Option String
deriving DecidableEq

/-- One entry of the parsed tool output array; link is absent when the item
has none (result.link is checked for truthiness and string type). -/
structure LCResultItem where
  link : Option String
deriving DecidableEq

/-- Upstream langchain streamEvents v2 occurrences consumed by
createSSEStream: a model token chunk (on_chat_model_stream, with
chunk.content when present as a string), the end of a model run
(on_chat_model_end, with the tool calls of its output), and the end of a
tool run (on_tool_end, with the output parsed as a JSON array when it is a
string that parses to an array, none otherwise). -/
inductive LCEvent where
  | chatModelStream (nodeName : String) (chunkContent : Option String)
  | chatModelEnd (nodeName : String) (toolCalls : List LCToolCall)
  | toolEnd (nodeName : String) (output : Option (List LCResultItem))
deriving DecidableEq

/-- The resilient stream state of createSSEStream (route.ts lines 624-629):
toolCallDetected, toolCallExecuted, searchQuery, searchUrls. -/
structure LCState where
  toolCallDetected : Bool
  toolCallExecuted : Bool
  searchQuery : String
  searchUrls : List String
deriving DecidableEq

/-- Initial createSSEStream state. -/
def initLC : LCState := ⟨false, false, "", []⟩

/-- Embedding of the createSSEStream event-loop body (route.ts lines
631-730): STEP 1 detects the first tool-calling model run at its
on_chat_model_end and emits search_start; STEP 2, at on_tool_end of the tool
node, marks the tool as executed and emits search_results when URLs were
extracted; STEP 3 streams a content chunk only when no tool call was
detected or the detected call has finished executing. -/
def stepLC (st : LCState) (e : LCEvent) : LCState × List SSEEvent :=
  match e with
  | .chatModelEnd nodeName toolCalls =>
    if nodeName = "model" ∧ st.toolCallDetected = false then
      if toolCalls ≠ [] then
        match toolCalls.find? (fun tc => tc.name = "google_custom_search") with
        | some tc =>
          let q := jsOrString tc.argsQuery tc.argsInput
          let st1 : LCState := { st with toolCallDetected := true, searchQuery := q }
          if q ≠ "" then (st1, [SSEEvent.searchStart q]) else (st1, [])
        | none => (st, [])
      else (st, [])
    else (st, [])
  | .toolEnd nodeName output =>
    if nodeName = "tool_node" ∧ st.toolCallDetected = true then
      let st1 : LCState := { st with toolCallExecuted := true }
      match output with
      | some results =>
        let urls := st1.searchUrls ++ results.filterMap (fun r =>
          match r.link with
          | some l => if l ≠ "" then some l else none
          | none => none)
        let st2 : LCState := { st1 with searchUrls := urls }
        if urls ≠ [] then (st2, [SSEEvent.searchResults urls]) else (st2, [])
      | none => (st1, [])
    else (st, [])
  | .chatModelStream _ chunkContent =>
    match chunkContent with
    | some c =>
      if c ≠ "" then
        if st.toolCallDetected = false ∨ st.toolCallExecuted = true then
          (st, [SSEEvent.content c])
        else (st, [])
      else (st, [])
    | none => (st, [])

/-- The createSSEStream fold over the upstream event list. -/
def runLC : LCState → List LCEvent → LCState × List SSEEvent
  | st, [] => (st, [])
  | st, e :: es =>
    let a := stepLC st e
    let b := runLC a.1 es
    (b.1, a.2 ++ b.2)

/-- A langgraph-variant upstream trace of one simulated model turn that
emits the tokens "T1 T2" and then requests the search tool, followed by the
tool run and a final answer turn streaming "4".  Per the streamEvents v2
contract the turn's token chunks arrive before the turn's
on_chat_model_end. -/
def c1ToolTurnTrace : List LCEvent :=
  [LCEvent.chatModelStream "model" (some "T1 T2"),
   LCEvent.chatModelEnd "model" [⟨"google_custom_search", some "q", none⟩],
   LCEvent.toolEnd "tool_node" (some [⟨some "u1"⟩]),
   LCEvent.chatModelStream "model" (some "4"),
   LCEvent.chatModelEnd "model" []]

/-- The ai-sdk variant step of a google_custom_search invocation that failed
(fetch rejected after the 8000 ms abort): the error-annotated tool result is
what onStepFinish receives. -/
def c2FailedStep : UpstreamV1 :=
  UpstreamV1.stepFinish
    [⟨"google_custom_search", some "latest AI news"⟩]
    [⟨"google_custom_search",
      executeGoogleSearch "latest AI news" (FetchOutcome.fetchError "The operation was aborted")⟩]

/-- A model behaviour that requests the search tool on every turn. -/
def c3AlwaysTool : Nat → ModelTurn := fun _ =>
  ⟨"planning text", some ⟨"google_custom_search", some "q"⟩,
   ⟨"google_custom_search", ⟨"q", [⟨"title", "u", "snippet"⟩], none⟩⟩⟩

/-- The request data the GET handler reads: the authorization header, and
the message / checkpoint_id / action query parameters (absent modelled as
none, as searchParams.get returns null). -/
structure GETRequest where
  authHeader : Option String
  message : Option String
  checkpointIdParam : Option String
  action : Option String

/-- Embedding of verifyAuthentication (route.ts lines 50-54): the header
must be present, start with "Bearer ", and carry exactly the admin key
after the 7-character shift. -/
def verifyAuthentication (authHeader : Option String) (adminApiKey : String) : Bool :=
  match authHeader with
  | none => false
  | some h =>
    if jsStartsWith h "Bearer " then decide (jsSubstringFrom 7 h = adminApiKey) else false

/-- What the GET handler returns before or instead of streaming: a JSON
error body with a status, the clear-action success JSON
({ success: true, message: "Conversation cleared" }, status 200, no error
field), or the opened event stream. -/
inductive GETResponse where
  | errorJson (status : Nat) (error : String)
  | clearSuccess
  | stream (message : String) (threadId : String)
deriving DecidableEq

/-- Holds exactly when a response is the 400 validation rejection the claim
requires for an absent or whitespace message. -/
def isValidationReject : GETResponse → Bool
  | .errorJson 400 _ => true
  | _ => false

/-- Embedding of the GET handler (route.ts lines 317-358), with the
environment already validated and the admin key supplied: reject with 401
JSON when authentication fails; resolve checkpointId as the query parameter
or a fresh uuid (freshId); serve the clear action with 200 JSON; reject an
absent or whitespace-only message with 400 JSON; otherwise open the stream.
The second component is the store after the request (the clear action
deletes the conversation). -/
def handleGET (adminApiKey freshId : String) (req : GETRequest) (store : ConversationStore) :
    GETResponse × ConversationStore :=
  if verifyAuthentication req.authHeader adminApiKey = false then
    (GETResponse.errorJson 401 "Missing or invalid authorization header. Use Bearer token.",
     store)
  else
    let checkpointId := jsOrString req.checkpointIdParam (some freshId)
    if req.action = some "clear" ∧ checkpointId ≠ "" then
      (GETResponse.clearSuccess, storeDelete store checkpointId)
    else if jsTrim (req.message.getD "") = "" then
      (GETResponse.errorJson 400 "Message parameter is required", store)
    else
      (GETResponse.stream (req.message.getD "") checkpointId, store)

/-- A parsed client stream event as read by the reducer of
src/lib/useChatStream.ts: the type tag, event.data when it is a string
(content events of the external API shape), event.data.query,
event.data.urls, event.content, and event.sources when it is an array. -/
structure ClientEvent where
  type : String
  dataStr : Option String
  dataQuery : Option String
  dataUrls : Option (List String)
  content : Option String
  sources : Option (List String)
deriving DecidableEq

/-- The client display state folded by the reducer: contentBuffer,
searchInfo.stages, searchInfo.query, searchInfo.urls, sourcesBuffer. -/
structure ReducerState where
  contentBuffer : String
  stages : List String
  query : String
  urls : List String
  sources : List String
deriving DecidableEq

/-- Initial reducer state for a turn. -/
def initReducer : ReducerState := ⟨"", [], "", [], []⟩

/-- One step of building a JS Set from a list: keep the element when it is
new, preserving first-insertion order. -/
def jsSetInsert (acc : List String) (x : String) : List String :=
  if x ∈ acc then acc else acc ++ [x]

/-- Embedding of [...new Set(l)]: deduplicate keeping the first occurrence
of each element, in order. -/
def jsSetList (l : List String) : List String := l.foldl jsSetInsert []

/-- Embedding of [...new Set([...stages, s])] as used for every stage
update of the reducer. -/
def addStage (stages : List String) (s : String) : List String :=
  jsSetList (stages ++ [s])

/-- The value a content event contributes before the trim check:
event.data ?? event.content ?? "". -/
def effectiveContent (e : ClientEvent) : String :=
  match e.dataStr with
  | some s => s
  | none => e.content.getD ""

/-- Embedding of the reducer switch of useChatStream.ts (lines 141-173):
content appends its non-whitespace effective text and may replace the
sources list; checkpoint is ignored; search_start adds the searching stage
and may replace the query; search_results adds the reading stage and may
replace the urls; search_error adds the reading stage; end adds the writing
stage; unknown types are ignored. -/
def stepReducer (st : ReducerState) (e : ClientEvent) : ReducerState :=
  if e.type = "content" then
    let c := effectiveContent e
    let st1 := if jsTrim c ≠ "" then { st with contentBuffer := st.contentBuffer ++ c } else st
    match e.sources with
    | some srcs => { st1 with sources := srcs }
    | none => st1
  else if e.type = "checkpoint" then st
  else if e.type = "search_start" then
    { st with stages := addStage st.stages "searching",
              query := jsOrString e.dataQuery (some st.query) }
  else if e.type = "search_results" then
    { st with stages := addStage st.stages "reading",
              urls := match e.dataUrls with | some us => us | none => st.urls }
  else if e.type = "search_error" then
    { st with stages := addStage st.stages "reading" }
  else if e.type = "end" then
    { st with stages := addStage st.stages "writing" }
  else st

/-- The reducer fold over the successfully parsed events of a stream, in
arrival order. -/
def runReducer (st : ReducerState) (es : List ClientEvent) : ReducerState :=
  es.foldl stepReducer st

/-- The text a parsed event contributes to contentBuffer: the effective
text of a content event when its trim is non-empty, nothing otherwise. -/
def contentContrib (e : ClientEvent) : Option String :=
  if e.type = "content" ∧ jsTrim (effectiveContent e) ≠ "" then some (effectiveContent e)
  else none

/-- Concatenation of a list of strings in order. -/
def concatAll (l : List String) : String := l.foldr (· ++ ·) ""

/-- Relation between two stream events: whenever both are search_results
events, the urls of the earlier one are an initial segment of the urls of
the later one. -/
def srRel (a b : SSEEvent) : Prop :=
  ∀ us vs, a = SSEEvent.searchResults us → b = SSEEvent.searchResults vs → ∃ t, vs = us ++ t

/-- Invariants of one emitting section of the createAIStream loop, relative
to the state it started from: searchUrls only grows by appending; every
emitted search_results event snapshots a list between the starting and the
final searchUrls; the emitted search_results events are pairwise
prefix-ordered; and no emitted event is terminal. -/
structure LoopEmitSpec (st : LoopStateV1) (out : LoopStateV1 × List SSEEvent) : Prop where
  urlsGrow : ∃ t, out.1.searchUrls = st.searchUrls ++ t
  snapshot : ∀ us, SSEEvent.searchResults us ∈ out.2 →
    (∃ t, us = st.searchUrls ++ t) ∧ (∃ t, out.1.searchUrls = us ++ t)
  pw : List.Pairwise srRel out.2
  noTerm : ∀ e ∈ out.2, isTerminal e = false

/-- Two successive successful searches, as upstream step-finish callbacks. -/
def c10Ups : List UpstreamV1 :=
  [UpstreamV1.stepFinish [⟨"google_custom_search", some "q1"⟩]
     [⟨"google_custom_search", ⟨"q1", [⟨"t1", "u1", "s1"⟩], none⟩⟩],
   UpstreamV1.stepFinish [⟨"google_custom_search", some "q2"⟩]
     [⟨"google_custom_search", ⟨"q2", [⟨"t2", "u2", "s2"⟩], none⟩⟩]]

/-- A search_start client event with query q. -/
def c5e1 : ClientEvent := ⟨"search_start", none, some "q", none, none, none⟩

/-- A search_results client event with one url. -/
def c5e2 : ClientEvent := ⟨"search_results", none, none, some ["u"], none, none⟩

/-- Two parsed content events: a whitespace-only fragment and the fragment
"4". -/
def c8Events : List ClientEvent :=
  [⟨"content", none, none, none, some " ", none⟩,
   ⟨"content", none, none, none, some "4", none⟩]

/-- An authenticated clear-action request carrying no message parameter. -/
def c7Req : GETRequest := ⟨some "Bearer k", none, some "t7", some "clear"⟩

theorem getHist_emptyStore (threadId : String) :
    getConversationHistory threadId emptyStore = [] := rfl

theorem getHist_add (threadId : String) (m : ChatMessage) (s : ConversationStore) :
    getConversationHistory threadId (addToConversationHistory threadId m s) =
      if (getConversationHistory threadId s ++ [m]).length > 50 then
        jsSliceLast 50 (getConversationHistory threadId s ++ [m])
      else getConversationHistory threadId s ++ [m] := by
  simp only [addToConversationHistory, getConversationHistory]
  split <;> simp [storeSet]

theorem jsSliceLast_append_left (n : Nat) (l r : List α) (h : n ≤ l.length) :
    jsSliceLast n (jsSliceLast n l ++ r) = jsSliceLast n (l ++ r) := by
  have h2 : l.length - n ≤ l.length := Nat.sub_le _ _
  unfold jsSliceLast
  rw [← List.drop_append_of_le_length h2, List.drop_drop]
  congr 1
  simp only [List.length_append, List.length_drop]
  omega

theorem addAll_getHist (threadId : String) (msgs : List ChatMessage) :
    ∀ (s : ConversationStore),
      (getConversationHistory threadId s).length ≤ 50 →
      getConversationHistory threadId (addAll threadId msgs s) =
        jsSliceLast 50 (getConversationHistory threadId s ++ msgs) := by
  induction msgs with
  | nil =>
      intro s h
      simp only [addAll, List.foldl_nil, List.append_nil, jsSliceLast,
        Nat.sub_eq_zero_of_le h, List.drop_zero]
  | cons m ms ih =>
      intro s h
      have hadd := getHist_add threadId m s
      have hstep : addAll threadId (m :: ms) s =
          addAll threadId ms (addToConversationHistory threadId m s) := by
        simp [addAll]
      rw [hstep]
      by_cases hlen : (getConversationHistory threadId s ++ [m]).length > 50
      · rw [if_pos hlen] at hadd
        have hlen50 : (getConversationHistory threadId s).length = 50 := by
          simp only [List.length_append, List.length_cons, List.length_nil] at hlen
          omega
        have hle : (getConversationHistory threadId
            (addToConversationHistory threadId m s)).length ≤ 50 := by
          rw [hadd]
          simp only [jsSliceLast, List.length_drop]
          omega
        rw [ih _ hle, hadd, jsSliceLast_append_left 50 _ ms (by
          simp only [List.length_append, List.length_cons, List.length_nil]; omega)]
        rw [List.append_assoc]
        rfl
      · rw [if_neg hlen] at hadd
        have hle : (getConversationHistory threadId
            (addToConversationHistory threadId m s)).length ≤ 50 := by
          rw [hadd]
          omega
        rw [ih _ hle, hadd, List.append_assoc]
        rfl

/-- C9: after every call to addToConversationHistory the stored list for the
thread id holds the most recently appended messages, at most 50 of them, in
order: appending a whole message sequence one by one to a fresh store leaves
exactly the last-50 slice of the sequence, whose length is at most 50; an
append to a full history therefore silently discards the oldest message. -/
theorem c9_history_cap (threadId : String) (msgs : List ChatMessage) :
    getConversationHistory threadId (addAll threadId msgs emptyStore) =
      jsSliceLast 50 msgs ∧
    (getConversationHistory threadId (addAll threadId msgs emptyStore)).length ≤ 50 := by
  have h := addAll_getHist threadId msgs emptyStore
    (by simp [getConversationHistory, emptyStore])
  have h2 : getConversationHistory threadId emptyStore ++ msgs = msgs := by
    simp [getConversationHistory, emptyStore]
  rw [h2] at h
  refine ⟨h, ?_⟩
  rw [h]
  unfold jsSliceLast
  rw [List.length_drop]
  omega

set_option maxRecDepth 20000 in
/-- C6 counterexample: appending 51 messages one by one and reloading the
history does not return the same sequence (the stored list was capped at
50), so the round-trip claim fails as stated for sequences longer than the
implicit 50-message cap. -/
theorem c6_roundtrip_counterexample :
    getConversationHistory "t9"
        (addAll "t9" (List.replicate 51 ⟨"user", "x"⟩) emptyStore) ≠
      List.replicate 51 (⟨"user", "x"⟩ : ChatMessage) := by decide

/-- C6 (amended): for every conversation id and every ordered sequence of at
most 50 messages appended one by one to a fresh conversation store,
reloading the history by that id returns exactly the same messages in the
same order; longer sequences reload as their last 50 messages. -/
theorem c6_roundtrip_amended (threadId : String) (msgs : List ChatMessage)
    (h : msgs.length ≤ 50) :
    getConversationHistory threadId (addAll threadId msgs emptyStore) = msgs := by
  have hh := addAll_getHist threadId msgs emptyStore
    (by simp [getConversationHistory, emptyStore])
  have h2 : getConversationHistory threadId emptyStore ++ msgs = msgs := by
    simp [getConversationHistory, emptyStore]
  rw [h2] at hh
  rw [hh]
  unfold jsSliceLast
  rw [Nat.sub_eq_zero_of_le h, List.drop_zero]

/-- C6 witness: the amended round-trip at a concrete one-message history. -/
theorem c6_roundtrip_witness :
    ([(⟨"user", "hi"⟩ : ChatMessage)].length ≤ 50) ∧
    getConversationHistory "t1" (addAll "t1" [⟨"user", "hi"⟩] emptyStore) =
      [⟨"user", "hi"⟩] :=
  ⟨by decide, c6_roundtrip_amended "t1" [⟨"user", "hi"⟩] (by decide)⟩

theorem handleToolCalls_cons_match (st : LoopStateV1) (c : ToolCallV1) (cs : List ToolCallV1)
    (h1 : c.toolName = "google_custom_search") (h2 : c.argsQuery.getD "" ≠ "") :
    handleToolCalls st (c :: cs) =
      ((handleToolCalls
          { st with searchQuery := c.argsQuery.getD "", isProcessingToolCall := true } cs).1,
       SSEEvent.searchStart (c.argsQuery.getD "") ::
         (handleToolCalls
          { st with searchQuery := c.argsQuery.getD "", isProcessingToolCall := true } cs).2) := by
  simp only [handleToolCalls, if_pos h1, if_pos h2]

theorem handleToolCalls_cons_empty (st : LoopStateV1) (c : ToolCallV1) (cs : List ToolCallV1)
    (h1 : c.toolName = "google_custom_search") (h2 : ¬ c.argsQuery.getD "" ≠ "") :
    handleToolCalls st (c :: cs) =
      handleToolCalls { st with searchQuery := c.argsQuery.getD "" } cs := by
  simp only [handleToolCalls, if_pos h1, if_neg h2]

theorem handleToolCalls_cons_other (st : LoopStateV1) (c : ToolCallV1) (cs : List ToolCallV1)
    (h1 : ¬ c.toolName = "google_custom_search") :
    handleToolCalls st (c :: cs) = handleToolCalls st cs := by
  simp only [handleToolCalls, if_neg h1]

theorem handleToolResults_cons_match (st : LoopStateV1) (r : ToolResultV1)
    (rs : List ToolResultV1) (h1 : r.toolName = "google_custom_search") :
    handleToolResults st (r :: rs) =
      ((handleToolResults
          { st with searchUrls := st.searchUrls ++ extractUrls r.result.results,
                    isProcessingToolCall := false } rs).1,
       (if st.searchUrls ++ extractUrls r.result.results ≠ [] then
          [SSEEvent.searchResults (st.searchUrls ++ extractUrls r.result.results)] else [])
         ++ (handleToolResults
          { st with searchUrls := st.searchUrls ++ extractUrls r.result.results,
                    isProcessingToolCall := false } rs).2) := by
  simp only [handleToolResults, if_pos h1]

theorem handleToolResults_cons_other (st : LoopStateV1) (r : ToolResultV1)
    (rs : List ToolResultV1) (h1 : ¬ r.toolName = "google_custom_search") :
    handleToolResults st (r :: rs) = handleToolResults st rs := by
  simp only [handleToolResults, if_neg h1]

theorem runLoopV1_cons (st : LoopStateV1) (u : UpstreamV1) (us : List UpstreamV1) :
    runLoopV1 st (u :: us) =
      ((runLoopV1 (stepV1 st u).1 us).1,
       (stepV1 st u).2 ++ (runLoopV1 (stepV1 st u).1 us).2) := rfl

theorem handleToolCalls_urls (cs : List ToolCallV1) :
    ∀ st : LoopStateV1, (handleToolCalls st cs).1.searchUrls = st.searchUrls := by
  induction cs with
  | nil => intro st; rfl
  | cons c cs ih =>
      intro st
      by_cases h1 : c.toolName = "google_custom_search"
      · by_cases h2 : c.argsQuery.getD "" ≠ ""
        · rw [handleToolCalls_cons_match st c cs h1 h2]
          exact ih _
        · rw [handleToolCalls_cons_empty st c cs h1 h2]
          exact ih _
      · rw [handleToolCalls_cons_other st c cs h1]
        exact ih _

theorem handleToolCalls_shape (cs : List ToolCallV1) :
    ∀ (st : LoopStateV1) (e : SSEEvent), e ∈ (handleToolCalls st cs).2 →
      ∃ q, e = SSEEvent.searchStart q := by
  induction cs with
  | nil => intro st e h; simp [handleToolCalls] at h
  | cons c cs ih =>
      intro st e h
      by_cases h1 : c.toolName = "google_custom_search"
      · by_cases h2 : c.argsQuery.getD "" ≠ ""
        · rw [handleToolCalls_cons_match st c cs h1 h2] at h
          rcases List.mem_cons.mp h with h | h
          · exact ⟨_, h⟩
          · exact ih _ _ h
        · rw [handleToolCalls_cons_empty st c cs h1 h2] at h
          exact ih _ _ h
      · rw [handleToolCalls_cons_other st c cs h1] at h
        exact ih _ _ h

theorem pairwise_srRel_of_no_sr (evs : List SSEEvent)
    (h : ∀ e ∈ evs, ∀ us, e ≠ SSEEvent.searchResults us) : List.Pairwise srRel evs := by
  induction evs with
  | nil => exact List.Pairwise.nil
  | cons a l ih =>
      refine List.Pairwise.cons ?_ (ih fun e he => h e (List.mem_cons_of_mem _ he))
      intro b _ us vs ha _
      exact absurd ha (h a (List.mem_cons_self _ _) us)

theorem handleToolCalls_spec (cs : List ToolCallV1) (st : LoopStateV1) :
    LoopEmitSpec st (handleToolCalls st cs) := by
  have hshape := handleToolCalls_shape cs st
  have hnosr : ∀ e ∈ (handleToolCalls st cs).2, ∀ us, e ≠ SSEEvent.searchResults us := by
    intro e he us
    obtain ⟨q, hq⟩ := hshape e he
    subst hq
    simp
  refine ⟨⟨[], by rw [List.append_nil]; exact handleToolCalls_urls cs st⟩, ?_, ?_, ?_⟩
  · intro us hus
    exact absurd rfl (hnosr _ hus us)
  · exact pairwise_srRel_of_no_sr _ hnosr
  · intro e he
    obtain ⟨q, hq⟩ := hshape e he
    subst hq
    rfl

theorem handleToolResults_spec (rs : List ToolResultV1) :
    ∀ st : LoopStateV1, LoopEmitSpec st (handleToolResults st rs) := by
  induction rs with
  | nil =>
      intro st
      refine ⟨⟨[], by rw [List.append_nil]; rfl⟩, ?_, List.Pairwise.nil, ?_⟩
      · intro us hus; simp [handleToolResults] at hus
      · intro e he; simp [handleToolResults] at he
  | cons r rs ih =>
      intro st
      by_cases h1 : r.toolName = "google_custom_search"
      · rw [handleToolResults_cons_match st r rs h1]
        obtain ⟨⟨t, hg⟩, hsnap, hpw, hnt⟩ :=
          ih { st with searchUrls := st.searchUrls ++ extractUrls r.result.results,
                       isProcessingToolCall := false }
        simp only at hg hsnap
        refine ⟨⟨extractUrls r.result.results ++ t, ?_⟩, ?_, ?_, ?_⟩
        · simp only
          rw [hg, List.append_assoc]
        · intro us hus
          rcases List.mem_append.mp hus with h | h
          · have hus2 : us = st.searchUrls ++ extractUrls r.result.results := by
              by_cases hne : st.searchUrls ++ extractUrls r.result.results ≠ []
              · rw [if_pos hne] at h
                rcases List.mem_singleton.mp h with h
                injection h
              · rw [if_neg hne] at h
                simp at h
            subst hus2
            exact ⟨⟨extractUrls r.result.results, rfl⟩, ⟨t, hg⟩⟩
          · obtain ⟨⟨t1, ht1⟩, ⟨t2, ht2⟩⟩ := hsnap us h
            refine ⟨⟨extractUrls r.result.results ++ t1, ?_⟩, ⟨t2, ht2⟩⟩
            rw [ht1, List.append_assoc]
        · refine List.pairwise_append.mpr ⟨?_, hpw, ?_⟩
          · split
            · exact List.pairwise_singleton _ _
            · exact List.Pairwise.nil
          · intro a ha b hb us vs haus hbvs
            have hau : a = SSEEvent.searchResults
                (st.searchUrls ++ extractUrls r.result.results) := by
              by_cases hne : st.searchUrls ++ extractUrls r.result.results ≠ []
              · rw [if_pos hne] at ha
                exact List.mem_singleton.mp ha
              · rw [if_neg hne] at ha
                simp at ha
            rw [hau] at haus
            injection haus with hus2
            obtain ⟨⟨t1, ht1⟩, _⟩ := hsnap vs (hbvs ▸ hb)
            exact ⟨t1, by rw [ht1, ← hus2]⟩
        · intro e he
          rcases List.mem_append.mp he with h | h
          · have : e = SSEEvent.searchResults
                (st.searchUrls ++ extractUrls r.result.results) := by
              by_cases hne : st.searchUrls ++ extractUrls r.result.results ≠ []
              · rw [if_pos hne] at h
                exact List.mem_singleton.mp h
              · rw [if_neg hne] at h
                simp at h
            subst this
            rfl
          · exact hnt e h
      · rw [handleToolResults_cons_other st r rs h1]
        exact ih st

theorem stepV1_spec (u : UpstreamV1) (st : LoopStateV1) :
    LoopEmitSpec st (stepV1 st u) := by
  cases u with
  | textChunk chunk =>
      by_cases h : st.isProcessingToolCall = false ∧ chunk ≠ ""
      · have he : stepV1 st (UpstreamV1.textChunk chunk) =
            ({ st with fullResponse := st.fullResponse ++ chunk },
             [SSEEvent.content chunk]) := by
          simp only [stepV1, if_pos h]
        rw [he]
        refine ⟨⟨[], by rw [List.append_nil]⟩, ?_, List.pairwise_singleton _ _, ?_⟩
        · intro us hus
          rcases List.mem_singleton.mp hus with h2
          injection h2
        · intro e he2
          rcases List.mem_singleton.mp he2 with h2
          subst h2
          rfl
      · have he : stepV1 st (UpstreamV1.textChunk chunk) = (st, []) := by
          simp only [stepV1, if_neg h]
        rw [he]
        refine ⟨⟨[], by rw [List.append_nil]⟩, ?_, List.Pairwise.nil, ?_⟩
        · intro us hus; simp at hus
        · intro e he2; simp at he2
  | stepFinish toolCalls toolResults =>
      have he : stepV1 st (UpstreamV1.stepFinish toolCalls toolResults) =
          ((handleToolResults (handleToolCalls st toolCalls).1 toolResults).1,
           (handleToolCalls st toolCalls).2 ++
             (handleToolResults (handleToolCalls st toolCalls).1 toolResults).2) := rfl
      rw [he]
      have hc := handleToolCalls_spec toolCalls st
      have hr := handleToolResults_spec toolResults (handleToolCalls st toolCalls).1
      have hceq : (handleToolCalls st toolCalls).1.searchUrls = st.searchUrls :=
        handleToolCalls_urls toolCalls st
      obtain ⟨⟨t, hg⟩, hsnap, hpw, hnt⟩ := hr
      refine ⟨⟨t, by rw [hg, hceq]⟩, ?_, ?_, ?_⟩
      · intro us hus
        rcases List.mem_append.mp hus with h | h
        · obtain ⟨q, hq⟩ := handleToolCalls_shape toolCalls st _ h
          exact absurd hq (by simp)
        · obtain ⟨⟨t1, ht1⟩, ⟨t2, ht2⟩⟩ := hsnap us h
          exact ⟨⟨t1, by rw [ht1, hceq]⟩, ⟨t2, ht2⟩⟩
      · refine List.pairwise_append.mpr ⟨hc.pw, hpw, ?_⟩
        intro a ha b hb us vs haus hbvs
        obtain ⟨q, hq⟩ := handleToolCalls_shape toolCalls st _ ha
        rw [hq] at haus
        exact absurd haus (by simp)
      · intro e he2
        rcases List.mem_append.mp he2 with h | h
        · exact hc.noTerm e h
        · exact hnt e h

theorem runLoopV1_spec (us : List UpstreamV1) :
    ∀ st : LoopStateV1, LoopEmitSpec st (runLoopV1 st us) := by
  induction us with
  | nil =>
      intro st
      refine ⟨⟨[], by rw [List.append_nil]; rfl⟩, ?_, List.Pairwise.nil, ?_⟩
      · intro us2 hus; simp [runLoopV1] at hus
      · intro e he; simp [runLoopV1] at he
  | cons u us ih =>
      intro st
      rw [runLoopV1_cons]
      have h1 := stepV1_spec u st
      have h2 := ih (stepV1 st u).1
      obtain ⟨⟨ta, hga⟩, hsnapa, hpwa, hnta⟩ := h1
      obtain ⟨⟨tb, hgb⟩, hsnapb, hpwb, hntb⟩ := h2
      refine ⟨⟨ta ++ tb, by rw [hgb, hga, List.append_assoc]⟩, ?_, ?_, ?_⟩
      · intro us2 hus
        rcases List.mem_append.mp hus with h | h
        · obtain ⟨⟨t1, ht1⟩, ⟨t2, ht2⟩⟩ := hsnapa us2 h
          refine ⟨⟨t1, ht1⟩, ⟨t2 ++ tb, ?_⟩⟩
          rw [hgb, ht2, List.append_assoc]
        · obtain ⟨⟨t1, ht1⟩, ⟨t2, ht2⟩⟩ := hsnapb us2 h
          refine ⟨⟨ta ++ t1, ?_⟩, ⟨t2, ht2⟩⟩
          rw [ht1, hga, List.append_assoc]
      · refine List.pairwise_append.mpr ⟨hpwa, hpwb, ?_⟩
        intro a ha b hb us2 vs2 haus hbvs
        obtain ⟨⟨t1, ht1⟩, ⟨t2, ht2⟩⟩ := hsnapa us2 (haus ▸ ha)
        obtain ⟨⟨t3, ht3⟩, _⟩ := hsnapb vs2 (hbvs ▸ hb)
        exact ⟨t2 ++ t3, by rw [ht3, ht2, List.append_assoc]⟩
      · intro e he
        rcases List.mem_append.mp he with h | h
        · exact hnta e h
        · exact hntb e h

/-- C4: every stream produced by createAIStream for a submitted message ends
in exactly one terminal event — end when the body runs to completion, error
when an exception preempts it — and every event before that terminal event
is non-terminal, so nothing is emitted after the terminal event. -/
theorem c4_terminal_event (threadId : String) (store : ConversationStore)
    (upstream : List UpstreamV1) (failAt : Option Nat) (failMessage : String) :
    ∃ pre, createAIStreamEvents threadId store upstream failAt failMessage =
        pre ++ [if failAt.isSome then SSEEvent.error failMessage else SSEEvent.endOfStream] ∧
      ∀ e ∈ pre, isTerminal e = false := by
  have hpre : ∀ e ∈ ((if (store threadId).isNone then [SSEEvent.checkpoint threadId] else []) ++
      (runLoopV1 initV1 upstream).2), isTerminal e = false := by
    intro e he
    rcases List.mem_append.mp he with h | h
    · split at h
      · rcases List.mem_singleton.mp h with h2
        subst h2
        rfl
      · simp at h
    · exact (runLoopV1_spec upstream initV1).noTerm e h
  cases failAt with
  | none =>
      refine ⟨_, ?_, hpre⟩
      simp [createAIStreamEvents]
  | some k =>
      refine ⟨List.take k
        ((if (store threadId).isNone then [SSEEvent.checkpoint threadId] else []) ++
          (runLoopV1 initV1 upstream).2), ?_, fun e he => hpre e (List.mem_of_mem_take he)⟩
      simp [createAIStreamEvents]

/-- C10: within one createAIStream stream the urls array carried by
search_results events is never reset between tool invocations: whenever a
search_results event with urls us precedes a search_results event with urls
vs in the emitted event sequence, us is an initial segment of vs (the
remainder being the URLs appended by the searches in between). -/
theorem c10_urls_accumulation (upstream : List UpstreamV1) (l1 l2 l3 : List SSEEvent)
    (us vs : List String)
    (h : (runLoopV1 initV1 upstream).2 =
      l1 ++ SSEEvent.searchResults us :: (l2 ++ SSEEvent.searchResults vs :: l3)) :
    us <+: vs := by
  have hpw := (runLoopV1_spec upstream initV1).pw
  rw [h] at hpw
  have h1 := (List.pairwise_append.mp hpw).2.1
  have h2 := (List.pairwise_cons.mp h1).1
  obtain ⟨t, ht⟩ := h2 _ (List.mem_append_right _ (List.mem_cons_self _ _)) us vs rfl rfl
  exact ⟨t, ht.symm⟩

/-- C10 witness: two successive successful searches produce search_results
events with urls ["u1"] and then ["u1", "u2"], and the theorem yields the
initial-segment relation between them. -/
theorem c10_urls_accumulation_witness :
    ((runLoopV1 initV1 c10Ups).2 =
      [SSEEvent.searchStart "q1"] ++ SSEEvent.searchResults ["u1"] ::
        ([SSEEvent.searchStart "q2"] ++ SSEEvent.searchResults ["u1", "u2"] :: [])) ∧
    ["u1"] <+: ["u1", "u2"] :=
  ⟨by decide,
   c10_urls_accumulation c10Ups [SSEEvent.searchStart "q1"] [SSEEvent.searchStart "q2"] []
     ["u1"] ["u1", "u2"] (by decide)⟩

theorem streamTextGo_le (turns : Nat → ModelTurn) :
    ∀ (fuel i : Nat), (streamTextGo turns fuel i).2 ≤ fuel := by
  intro fuel
  induction fuel with
  | zero => intro i; simp [streamTextGo]
  | succ f ih =>
      intro i
      cases h : (turns i).toolCall with
      | none => simp [streamTextGo, h]
      | some c =>
          have h2 := ih (i + 1)
          simp only [streamTextGo, h]
          omega

theorem streamTextGo_always (turns : Nat → ModelTurn)
    (h : ∀ i, (turns i).toolCall.isSome = true) :
    ∀ (fuel i : Nat), (streamTextGo turns fuel i).2 = fuel := by
  intro fuel
  induction fuel with
  | zero => intro i; rfl
  | succ f ih =>
      intro i
      cases hc : (turns i).toolCall with
      | none => exact absurd (h i) (by simp [hc])
      | some c => simp [streamTextGo, hc, ih]

theorem c3Stream_eq (turns : Nat → ModelTurn) :
    c3Stream turns =
      ([SSEEvent.checkpoint "thread-1"] ++ (runLoopV1 initV1 (streamTextRun turns).1).2) ++
        [SSEEvent.endOfStream] := by
  simp [c3Stream, createAIStreamEvents, emptyStore]

/-- C3 counterexample: a model that requests the search tool on every turn
is indeed capped at 5 round-trips, but the resulting stream then terminates
with a normal end event, and no error event carrying step_limit_exceeded is
ever emitted — contradicting the claim that the stream is terminated by an
error event whose kind is step_limit_exceeded. -/
theorem c3_step_limit_counterexample :
    (streamTextRun c3AlwaysTool).2 = 5 ∧
    (c3Stream c3AlwaysTool).getLast? = some SSEEvent.endOfStream ∧
    SSEEvent.error "step_limit_exceeded" ∉ c3Stream c3AlwaysTool :=
  ⟨by decide, by decide, by decide⟩

/-- C3 (amended): for every user turn the number of model-to-tool round
trips is bounded by the fixed maximum 5 (the maxSteps: 5 configuration),
and when a model that always requests a tool reaches this bound, the stream
terminates with a normal end event; no error event of any kind (in
particular none of kind step_limit_exceeded) is emitted for reaching the
bound. -/
theorem c3_step_limit_amended (turns : Nat → ModelTurn) :
    (streamTextRun turns).2 ≤ 5 ∧
    ((∀ i, (turns i).toolCall.isSome = true) →
      (streamTextRun turns).2 = 5 ∧
      (c3Stream turns).getLast? = some SSEEvent.endOfStream ∧
      ∀ m, SSEEvent.error m ∉ c3Stream turns) := by
  refine ⟨streamTextGo_le turns 5 0, fun h => ⟨streamTextGo_always turns h 5 0, ?_, ?_⟩⟩
  · rw [c3Stream_eq]
    exact List.getLast?_concat _
  · intro m hm
    rw [c3Stream_eq] at hm
    rcases List.mem_append.mp hm with h2 | h2
    · rcases List.mem_append.mp h2 with h3 | h3
      · have h4 := List.mem_singleton.mp h3
        simp at h4
      · have h5 := (runLoopV1_spec (streamTextRun turns).1 initV1).noTerm _ h3
        simp [isTerminal] at h5
    · have h4 := List.mem_singleton.mp h2
      simp at h4

/-- C3 witness: the amended statement applied to the concrete always-tool
model behaviour. -/
theorem c3_step_limit_witness :
    (streamTextRun c3AlwaysTool).2 = 5 ∧
    (c3Stream c3AlwaysTool).getLast? = some SSEEvent.endOfStream ∧
    SSEEvent.error "boom" ∉ c3Stream c3AlwaysTool :=
  ⟨((c3_step_limit_amended c3AlwaysTool).2 (fun _ => rfl)).1,
   ((c3_step_limit_amended c3AlwaysTool).2 (fun _ => rfl)).2.1,
   ((c3_step_limit_amended c3AlwaysTool).2 (fun _ => rfl)).2.2 "boom"⟩

/-- C1: evaluation of the createSSEStream gating logic on a simulated model
turn that emits the tokens "T1 T2" and then requests the search tool.  The
turn's tokens arrive as on_chat_model_stream events before the turn's
on_chat_model_end reveals the tool request, and at that moment
toolCallDetected is still false, so the planning tokens are emitted as a
content event — the buffered-per-turn discard the claim requires does not
happen.  The ai-sdk variant behaves the same way: its isProcessingToolCall
flag is first set inside onStepFinish, which runs only after the step's
chunks have already passed the content gate. -/
theorem c1_token_gating_eval :
    (runLC initLC c1ToolTurnTrace).2 =
      [SSEEvent.content "T1 T2", SSEEvent.searchStart "q", SSEEvent.searchResults ["u1"],
       SSEEvent.content "4"] := by decide

/-- C2: evaluation of the tool-failure path.  The failed invocation returns
an error-annotated result (error field set, empty results), which is what is
fed back to the model, and the loop continues; but processing the whole
finished step emits only the search_start event — no event whatsoever
surfaces the failure, and the server event vocabulary (SSEEvent) has no
search_error variant at all. -/
theorem c2_tool_failure_eval :
    (executeGoogleSearch "latest AI news"
        (FetchOutcome.fetchError "The operation was aborted")).error =
      some "The operation was aborted" ∧
    (stepV1 initV1 c2FailedStep).2 = [SSEEvent.searchStart "latest AI news"] :=
  ⟨rfl, by decide⟩

theorem mem_jsSetInsert (acc : List String) (a x : String) :
    x ∈ jsSetInsert acc a ↔ x ∈ acc ∨ x = a := by
  unfold jsSetInsert
  split
  · next h => exact ⟨Or.inl, fun h2 => h2.elim id (fun hx => hx ▸ h)⟩
  · simp

theorem foldl_jsSetInsert_mem (l : List String) :
    ∀ (acc : List String) (x : String), x ∈ l.foldl jsSetInsert acc ↔ x ∈ acc ∨ x ∈ l := by
  induction l with
  | nil => intro acc x; simp
  | cons a l ih =>
      intro acc x
      rw [List.foldl_cons, ih, mem_jsSetInsert]
      simp [List.mem_cons, or_assoc]

theorem jsSetInsert_nodup (acc : List String) (a : String) (h : acc.Nodup) :
    (jsSetInsert acc a).Nodup := by
  unfold jsSetInsert
  split
  · exact h
  · next hna => simp [List.nodup_append, h, hna]

theorem foldl_jsSetInsert_nodup (l : List String) :
    ∀ acc : List String, acc.Nodup → (l.foldl jsSetInsert acc).Nodup := by
  induction l with
  | nil => intro acc h; exact h
  | cons a l ih =>
      intro acc h
      rw [List.foldl_cons]
      exact ih _ (jsSetInsert_nodup acc a h)

theorem addStage_nodup (stages : List String) (s : String) : (addStage stages s).Nodup :=
  foldl_jsSetInsert_nodup _ [] List.nodup_nil

theorem mem_addStage (stages : List String) (s x : String) :
    x ∈ addStage stages s ↔ x ∈ stages ∨ x = s := by
  unfold addStage jsSetList
  rw [foldl_jsSetInsert_mem]
  simp

theorem foldl_jsSetInsert_eq (l : List String) :
    ∀ acc : List String, (acc ++ l).Nodup → l.foldl jsSetInsert acc = acc ++ l := by
  induction l with
  | nil => intro acc h; simp
  | cons a l ih =>
      intro acc h
      have hna : a ∉ acc := by
        intro hmem
        exact (List.nodup_append.mp h).2.2 hmem (List.mem_cons_self _ _)
      have h2 : jsSetInsert acc a = acc ++ [a] := by
        unfold jsSetInsert
        rw [if_neg hna]
      rw [List.foldl_cons, h2, ih (acc ++ [a]) (by simpa [List.append_assoc] using h)]
      simp

theorem addStage_eq (stages : List String) (s : String) (h : stages.Nodup) :
    addStage stages s = if s ∈ stages then stages else stages ++ [s] := by
  unfold addStage jsSetList
  rw [List.foldl_append]
  have h1 : List.foldl jsSetInsert [] stages = stages := by
    have h2 := foldl_jsSetInsert_eq stages [] (by simpa using h)
    simpa using h2
  rw [h1]
  rfl

theorem addStage_length (stages : List String) (s : String) (h : stages.Nodup) :
    stages.length ≤ (addStage stages s).length := by
  rw [addStage_eq stages s h]
  split
  · exact Nat.le_refl _
  · simp

theorem stepReducer_stages_cases (st : ReducerState) (e : ClientEvent) :
    (stepReducer st e).stages = st.stages ∨
      (stepReducer st e).stages = addStage st.stages "searching" ∨
      (stepReducer st e).stages = addStage st.stages "reading" ∨
      (stepReducer st e).stages = addStage st.stages "writing" := by
  unfold stepReducer
  repeat' split
  all_goals simp [apply_ite ReducerState.stages]

theorem stepReducer_stages_mem (st : ReducerState) (e : ClientEvent) (x : String)
    (h : x ∈ st.stages) : x ∈ (stepReducer st e).stages := by
  rcases stepReducer_stages_cases st e with h1 | h1 | h1 | h1 <;> rw [h1] <;>
    simp [mem_addStage, h]

theorem stepReducer_stages_nodup (st : ReducerState) (e : ClientEvent)
    (h : st.stages.Nodup) : (stepReducer st e).stages.Nodup := by
  rcases stepReducer_stages_cases st e with h1 | h1 | h1 | h1 <;> rw [h1] <;>
    first
      | exact h
      | exact addStage_nodup _ _

theorem stepReducer_stages_length (st : ReducerState) (e : ClientEvent)
    (h : st.stages.Nodup) : st.stages.length ≤ (stepReducer st e).stages.length := by
  rcases stepReducer_stages_cases st e with h1 | h1 | h1 | h1 <;> rw [h1] <;>
    first
      | exact Nat.le_refl _
      | exact addStage_length _ _ h

theorem runReducer_stages_mem (es : List ClientEvent) :
    ∀ (st : ReducerState) (x : String), x ∈ st.stages → x ∈ (runReducer st es).stages := by
  induction es with
  | nil => intro st x h; exact h
  | cons e es ih =>
      intro st x h
      exact ih _ _ (stepReducer_stages_mem st e x h)

theorem runReducer_stages_nodup (es : List ClientEvent) :
    ∀ st : ReducerState, st.stages.Nodup → (runReducer st es).stages.Nodup := by
  induction es with
  | nil => intro st h; exact h
  | cons e es ih =>
      intro st h
      exact ih _ (stepReducer_stages_nodup st e h)

theorem runReducer_stages_length (es : List ClientEvent) :
    ∀ st : ReducerState, st.stages.Nodup →
      st.stages.length ≤ (runReducer st es).stages.length := by
  induction es with
  | nil => intro st _; exact Nat.le_refl _
  | cons e es ih =>
      intro st h
      exact Nat.le_trans (stepReducer_stages_length st e h)
        (ih _ (stepReducer_stages_nodup st e h))

theorem stepReducer_search_start (st : ReducerState) (e : ClientEvent)
    (h : e.type = "search_start") :
    (stepReducer st e).stages = addStage st.stages "searching" := by
  simp [stepReducer, h]

theorem stepReducer_search_results (st : ReducerState) (e : ClientEvent)
    (h : e.type = "search_results") :
    (stepReducer st e).stages = addStage st.stages "reading" := by
  simp [stepReducer, h]

theorem stepReducer_search_error (st : ReducerState) (e : ClientEvent)
    (h : e.type = "search_error") :
    (stepReducer st e).stages = addStage st.stages "reading" := by
  simp [stepReducer, h]

/-- C5: the stage set recorded by the client stream reducer only grows along
a stream (a stage once added is never removed and duplicates are not added,
so the stage list stays duplicate-free and its cardinality is
non-decreasing), and every event sequence containing a search_start followed
by a search_results or search_error ends with a stage set containing both
searching and reading. -/
theorem c5_stage_monotonicity (es es2 : List ClientEvent) (l1 l2 l3 : List ClientEvent)
    (e1 e2 : ClientEvent) :
    (∀ s ∈ (runReducer initReducer es).stages, s ∈ (runReducer initReducer (es ++ es2)).stages) ∧
    (runReducer initReducer es).stages.length ≤
      (runReducer initReducer (es ++ es2)).stages.length ∧
    (runReducer initReducer es).stages.Nodup ∧
    (es = l1 ++ e1 :: (l2 ++ e2 :: l3) → e1.type = "search_start" →
      (e2.type = "search_results" ∨ e2.type = "search_error") →
      "searching" ∈ (runReducer initReducer es).stages ∧
      "reading" ∈ (runReducer initReducer es).stages) := by
  have hext : runReducer initReducer (es ++ es2) =
      runReducer (runReducer initReducer es) es2 := by
    unfold runReducer
    rw [List.foldl_append]
  have hnd : (runReducer initReducer es).stages.Nodup :=
    runReducer_stages_nodup es initReducer List.nodup_nil
  refine ⟨?_, ?_, hnd, ?_⟩
  · intro s hs
    rw [hext]
    exact runReducer_stages_mem es2 _ s hs
  · rw [hext]
    exact runReducer_stages_length es2 _ hnd
  · intro hdecomp h1 h2
    subst hdecomp
    have hsplit : runReducer initReducer (l1 ++ e1 :: (l2 ++ e2 :: l3)) =
        runReducer (stepReducer (runReducer initReducer l1) e1) (l2 ++ e2 :: l3) := by
      unfold runReducer
      rw [List.foldl_append, List.foldl_cons]
    have hsplit2 : ∀ st : ReducerState, runReducer st (l2 ++ e2 :: l3) =
        runReducer (stepReducer (runReducer st l2) e2) l3 := by
      intro st
      unfold runReducer
      rw [List.foldl_append, List.foldl_cons]
    have hsearch1 : "searching" ∈ (stepReducer (runReducer initReducer l1) e1).stages := by
      rw [stepReducer_search_start _ e1 h1]
      exact (mem_addStage _ _ _).mpr (Or.inr rfl)
    have hsearch2 : "searching" ∈
        (runReducer (stepReducer (runReducer initReducer l1) e1) l2).stages :=
      runReducer_stages_mem l2 _ _ hsearch1
    have hb : (stepReducer
        (runReducer (stepReducer (runReducer initReducer l1) e1) l2) e2).stages =
        addStage (runReducer (stepReducer (runReducer initReducer l1) e1) l2).stages
          "reading" := by
      rcases h2 with h2 | h2
      · exact stepReducer_search_results _ e2 h2
      · exact stepReducer_search_error _ e2 h2
    rw [hsplit, hsplit2]
    constructor
    · apply runReducer_stages_mem
      rw [hb]
      exact (mem_addStage _ _ _).mpr (Or.inl hsearch2)
    · apply runReducer_stages_mem
      rw [hb]
      exact (mem_addStage _ _ _).mpr (Or.inr rfl)

/-- C5 witness: a concrete sequence search_start then search_results reaches
a stage set containing searching and reading. -/
theorem c5_stage_monotonicity_witness :
    "searching" ∈ (runReducer initReducer [c5e1, c5e2]).stages ∧
    "reading" ∈ (runReducer initReducer [c5e1, c5e2]).stages :=
  (c5_stage_monotonicity [c5e1, c5e2] [] [] [] [] c5e1 c5e2).2.2.2 rfl rfl (Or.inl rfl)

theorem stepReducer_buffer (st : ReducerState) (e : ClientEvent) :
    (stepReducer st e).contentBuffer = st.contentBuffer ++ (contentContrib e).getD "" := by
  by_cases ht : e.type = "content"
  · by_cases hc : jsTrim (effectiveContent e) ≠ ""
    · have hcontrib : contentContrib e = some (effectiveContent e) := by
        unfold contentContrib
        rw [if_pos ⟨ht, hc⟩]
      rw [hcontrib]
      cases hs : e.sources <;> simp [stepReducer, ht, hs, hc]
    · rw [not_not] at hc
      have hcontrib : contentContrib e = none := by
        unfold contentContrib
        rw [if_neg (fun hand => hand.2 hc)]
      rw [hcontrib, Option.getD_none, String.append_empty]
      cases hs : e.sources <;> simp [stepReducer, ht, hs, hc]
  · have hcontrib : contentContrib e = none := by
      unfold contentContrib
      rw [if_neg (fun hand => ht hand.1)]
    rw [hcontrib, Option.getD_none, String.append_empty]
    unfold stepReducer
    rw [if_neg ht]
    repeat' split
    all_goals rfl

/-- C8 (amended): the final accumulated answer text equals the in-order
concatenation of the effective text (the data field when present, else the
content field) of all successfully parsed content events whose effective
text is not whitespace-only; whitespace-only fragments are skipped by the
reducer. -/
theorem c8_content_amended (es : List ClientEvent) :
    ∀ st : ReducerState, (runReducer st es).contentBuffer =
      st.contentBuffer ++ concatAll (es.filterMap contentContrib) := by
  induction es with
  | nil => intro st; simp [runReducer, concatAll, String.append_empty]
  | cons e es ih =>
      intro st
      have h1 : runReducer st (e :: es) = runReducer (stepReducer st e) es := rfl
      rw [h1, ih, stepReducer_buffer]
      cases hce : contentContrib e with
      | none => simp [List.filterMap_cons, hce, String.append_empty]
      | some c => simp [List.filterMap_cons, hce, concatAll, String.append_assoc]

/-- C8 counterexample: for the parsed content events with texts " " and "4"
the reducer accumulates "4", not the concatenation " 4" of the content
fields of all parsed content events, because the whitespace-only fragment is
skipped — so the claim fails as stated. -/
theorem c8_content_counterexample :
    (runReducer initReducer c8Events).contentBuffer ≠
      concatAll ((c8Events.filter (fun e => e.type == "content")).map
        (fun e => e.content.getD "")) := by decide

theorem jsOrString_ne_empty (a : Option String) (f : String) (hf : f ≠ "") :
    jsOrString a (some f) ≠ "" := by
  simp only [jsOrString]
  split
  · next h => exact h
  · simp only [Option.getD_some]
    exact hf

/-- C7 counterexample: an authenticated request whose action parameter is
clear and whose message is absent is answered with the 200 clear-success
JSON (no error field, no stream), not with the 400 validation rejection the
claim requires for every request with an absent or whitespace message. -/
theorem c7_rejection_counterexample :
    verifyAuthentication c7Req.authHeader "k" = true ∧
    jsTrim (c7Req.message.getD "") = "" ∧
    (handleGET "k" "f" c7Req emptyStore).1 = GETResponse.clearSuccess ∧
    isValidationReject (handleGET "k" "f" c7Req emptyStore).1 = false :=
  ⟨by decide, by decide, by decide, by decide⟩

/-- C7 (amended): a request failing bearer authentication is answered with
the 401 JSON error and an untouched store; an authenticated request whose
action is not clear and whose message is absent or whitespace-only is
answered with the 400 JSON error and an untouched store; an authenticated
clear-action request is answered with the 200 clear-success JSON.  In all
three cases the response is not a stream, so no event stream is opened and
no model or tool work begins. -/
theorem c7_rejection_amended (adminApiKey freshId : String) (req : GETRequest)
    (store : ConversationStore) :
    (verifyAuthentication req.authHeader adminApiKey = false →
      handleGET adminApiKey freshId req store =
        (GETResponse.errorJson 401 "Missing or invalid authorization header. Use Bearer token.",
         store)) ∧
    (verifyAuthentication req.authHeader adminApiKey = true →
      req.action ≠ some "clear" →
      jsTrim (req.message.getD "") = "" →
      handleGET adminApiKey freshId req store =
        (GETResponse.errorJson 400 "Message parameter is required", store)) ∧
    (verifyAuthentication req.authHeader adminApiKey = true →
      req.action = some "clear" → freshId ≠ "" →
      (handleGET adminApiKey freshId req store).1 = GETResponse.clearSuccess) := by
  refine ⟨?_, ?_, ?_⟩
  · intro hauth
    simp only [handleGET]
    rw [if_pos hauth]
  · intro hauth hact hmsg
    simp only [handleGET]
    rw [if_neg (by simp [hauth]), if_neg (fun hand => hact hand.1), if_pos hmsg]
  · intro hauth hact hfresh
    simp only [handleGET]
    rw [if_neg (by simp [hauth]), if_pos ⟨hact, jsOrString_ne_empty _ _ hfresh⟩]

/-- C7 witness: the amended statement applied to a request with no
authorization header. -/
theorem c7_rejection_witness :
    verifyAuthentication (none : Option String) "k" = false ∧
    handleGET "k" "f" (⟨none, none, none, none⟩ : GETRequest) emptyStore =
      (GETResponse.errorJson 401 "Missing or invalid authorization header. Use Bearer token.",
       emptyStore) :=
  ⟨by decide, (c7_rejection_amended "k" "f" ⟨none, none, none, none⟩ emptyStore).1 (by decide)⟩

end FBASearch
